import Mathlib

set_option maxHeartbeats 1000000
set_option maxRecDepth 100000

/-!
Verification of the archive-walking core of `src/mytar.c` (a minimal tar
lister/extractor).  Byte streams are modelled as `List Int` (each element the
value of one octet, 0–255); machine `long` arithmetic is modelled by
unbounded `Int` (the 12-byte octal size field cannot overflow 64 bits), and
C's truncating division by `Int.tdiv`.
-/

/-- Value of a byte when the C `char` type is signed (two's complement), as on
the reference platform: bytes at least 128 wrap to negative values. -/
def schar (b : Int) : Int := if b < 128 then b else b - 256

/-- The NUL-terminated C string starting at the head of a byte list, as
delimited by `strlen`/`strcmp`: the bytes strictly before the first zero
byte. -/
def cstr (l : List Int) : List Int := l.takeWhile (fun b => b != 0)

/-- Loop of `oct2dec` in src/mytar.c: iterates from the last character of the
string down to the first, adding `(octal[i] - '0') * radix` to the
accumulator and multiplying `radix` by 8 each step.  The list argument is the
digit string reversed, matching the descending index of the C loop; the pair
is `(decimal, radix)`. -/
def oct2decLoop : List Int → Int × Int → Int × Int
  | [], st => st
  | d :: rest, st => oct2decLoop rest (st.1 + (schar d - 48) * st.2, st.2 * 8)

/-- The `oct2dec` function of src/mytar.c: `strlen` bounds the digit string at
the first NUL byte, then every byte before it is treated as a base-8 digit
offset from the character `'0'` (value 48). -/
def oct2dec (octal : List Int) : Int :=
  (oct2decLoop (cstr octal).reverse (0, 1)).1

/-- The `MAGIC` constant of src/mytar.c: the C string "ustar  "
(u s t a r space space). -/
def MAGIC : List Int := [117, 115, 116, 97, 114, 32, 32]

/-- The `REG_FILE` constant of src/mytar.c: the C string "0". -/
def REG_FILE : List Int := [48]

/-- The `is_empty_block` function of src/mytar.c: true iff every byte of the
512-byte block is zero. -/
def is_empty_block (buffer : List Int) : Bool := buffer.all (fun b => b == 0)

/-- The magic test performed by `is_tar_archive` in src/mytar.c:
`strcmp(header->magic, MAGIC) == 0`.  `header->magic` is the NUL-terminated
string starting at offset 257 of the block (the 6-byte magic field, with
`strcmp` running on into the adjacent version field).  The C function exits
the process on mismatch; the walker model consults this boolean and produces
the fatal outcome itself. -/
def is_tar_archive (block : List Int) : Bool := cstr (block.drop 257) == MAGIC

/-- The type test performed by `is_regular_file` in src/mytar.c:
`strcmp(header->typeflag, REG_FILE) == 0`.  `header->typeflag` is the
NUL-terminated string starting at the one-byte typeflag field (offset 156),
so `strcmp` also inspects the first linkname byte at offset 157. -/
def is_regular_file (block : List Int) : Bool := cstr (block.drop 156) == REG_FILE

/-- The `blocks_count` computation of `extract_file` and `read_archive` in
src/mytar.c: `(file_size + BLOCK_SIZE - 1) / BLOCK_SIZE` with C's truncating
signed division. -/
def blocks_count (file_size : Int) : Int := Int.tdiv (file_size + 511) 512

/-- The `bytes_left` computation of `extract_file` in src/mytar.c:
`file_size - (blocks_count - 1) * BLOCK_SIZE`, the data bytes remaining in
the last block. -/
def bytes_left (file_size : Int) : Int := file_size - (blocks_count file_size - 1) * 512

/-- The `mark_file` function of src/mytar.c, with the parallel
`files_args`/`files_found` arrays paired into one list: scan for the first
pending pair whose name equals `filename` and whose found-flag is still
false; set that flag and return true, or return false (state unchanged) if
there is none. -/
def mark_file (filename : List Int) : List (List Int × Bool) → Bool × List (List Int × Bool)
  | [] => (false, [])
  | (n, f) :: rest =>
    if n = filename ∧ f = false then (true, (n, true) :: rest)
    else
      let r := mark_file filename rest
      (r.1, (n, f) :: r.2)

/-- The `report_missing_files` function of src/mytar.c: returns whether any
pending name is still unflagged, paired with the list of names warned about,
in scan order. -/
def report_missing_files : List (List Int × Bool) → Bool × List (List Int)
  | [] => (false, [])
  | (n, f) :: rest =>
    let r := report_missing_files rest
    if f then (r.1, r.2) else (true, n :: r.2)

/-- One `fread` of a full 512-byte block at byte position `pos` of the
stream: yields the block exactly when a whole block lies inside the stream,
and fails (the C call returns 0 items) otherwise. -/
def readBlock (stream : List Int) (pos : Int) : Option (List Int) :=
  if 0 ≤ pos ∧ pos + 512 ≤ (stream.length : Int) then
    some ((stream.drop pos.toNat).take 512)
  else none

/-- The block loop of `extract_file` in src/mytar.c, counting down the
blocks that remain to be read: the final block (one remaining) contributes
only its first `tail` bytes to the output, earlier blocks contribute all
512.  Returns the bytes written and the stream position after the reads, or
`none` for the fatal unexpected-EOF exit on a short read. -/
def extractLoop (stream : List Int) (tail : Int) : Nat → Int → List Int → Option (List Int × Int)
  | 0, pos, out => some (out, pos)
  | n + 1, pos, out =>
    match readBlock stream pos with
    | none => none
    | some blk =>
      extractLoop stream tail n (pos + 512) (out ++ if n = 0 then blk.take tail.toNat else blk)

/-- The `extract_file` function of src/mytar.c, with the output file
abstracted to the list of bytes written to it: decode the octal size field at
offset 124 of the header block, derive the block count and the meaningful
byte count of the last block, then stream that many payload blocks. -/
def extract_file (stream : List Int) (pos : Int) (header : List Int) : Option (List Int × Int) :=
  extractLoop stream (bytes_left (oct2dec (header.drop 124)))
    (blocks_count (oct2dec (header.drop 124))).toNat pos []

/-- Modelled from the claim's wording, for comparison with `oct2dec`: treat
each of the `n` bytes of the field as a base-8 digit (the byte value minus
`'0'`) and form the weighted sum `Σ digit_i * 8 ^ (n - 1 - i)`. -/
def octSpecValue (field : List Int) : Int :=
  ∑ i ∈ Finset.range field.length, (field.getD i 0 - 48) * 8 ^ (field.length - 1 - i)

/-- Little-endian valuation of a digit string (least significant digit
first); the fixed point of the `oct2dec` accumulation loop. -/
def octValLE : List Int → Int
  | [] => 0
  | d :: rest => (d - 48) + 8 * octValLE rest

theorem oct2decLoop_spec (s : List Int) (hs : ∀ b ∈ s, schar b = b) (dec radix : Int) :
    (oct2decLoop s (dec, radix)).1 = dec + radix * octValLE s := by
  induction s generalizing dec radix with
  | nil => simp [oct2decLoop, octValLE]
  | cons d rest ih =>
    have hd : schar d = d := hs d (by simp)
    have hrest : ∀ b ∈ rest, schar b = b := fun b hb => hs b (by simp [hb])
    simp only [oct2decLoop, octValLE, ih hrest, hd]
    ring

theorem octValLE_append_singleton (s : List Int) (d : Int) :
    octValLE (s ++ [d]) = octValLE s + 8 ^ s.length * (d - 48) := by
  induction s with
  | nil => simp [octValLE]
  | cons a t ih => simp [octValLE, ih, pow_succ]; ring

theorem octSpecValue_cons (d : Int) (t : List Int) :
    octSpecValue (d :: t) = (d - 48) * 8 ^ t.length + octSpecValue t := by
  unfold octSpecValue
  rw [List.length_cons, Finset.sum_range_succ']
  simp only [List.getD_cons_succ, List.getD_cons_zero, Nat.add_sub_cancel, Nat.sub_zero]
  rw [add_comm]
  congr 1
  apply Finset.sum_congr rfl
  intro i _
  congr 2
  omega

theorem octValLE_reverse (l : List Int) : octValLE l.reverse = octSpecValue l := by
  induction l with
  | nil => simp [octValLE, octSpecValue]
  | cons d t ih =>
    rw [List.reverse_cons, octValLE_append_singleton, ih, octSpecValue_cons,
      List.length_reverse]
    ring

theorem cstr_of_no_nul (l : List Int) (h : ∀ b ∈ l, b ≠ 0) : cstr l = l := by
  unfold cstr
  rw [List.takeWhile_eq_self_iff]
  intro b hb
  simpa using h b hb

theorem cstr_append_nul (l₁ l₂ : List Int) (h : ∀ b ∈ l₁, b ≠ 0) :
    cstr (l₁ ++ 0 :: l₂) = l₁ := by
  induction l₁ with
  | nil => simp [cstr, List.takeWhile_cons]
  | cons a t ih =>
    have ha : a ≠ 0 := h a (by simp)
    have ht : ∀ b ∈ t, b ≠ 0 := fun b hb => h b (by simp [hb])
    have := ih ht
    simp only [cstr, List.cons_append, List.takeWhile_cons] at this ⊢
    simp [ha, this]

/-- C2: the octal decoder does NOT consume the declared field length: it
stops at the first NUL byte (the `strlen` bound), so a NUL-padded field
decodes only its digit prefix, refuting the claimed formula over all `n`
bytes.  At the field `"12\0"` (declared length 3) the decoder yields 10 while
the claimed all-bytes sum yields 32. -/
theorem c2_counterexample :
    oct2dec [49, 50, 0] = 10 ∧ octSpecValue [49, 50, 0] = 32 ∧
      oct2dec [49, 50, 0] ≠ octSpecValue [49, 50, 0] := by
  refine ⟨by decide, ?_, ?_⟩ <;> simp [octSpecValue, Finset.sum_range_succ, oct2dec,
    cstr, oct2decLoop, schar, List.takeWhile]

/-- C2 (amended): the octal decoder consumes bytes up to the first NUL (the
`strlen` bound), not the declared field length — appending a NUL and
arbitrary further bytes to a NUL-free field leaves the decoded value
unchanged; and on every field consisting solely of octal digit bytes
('0'–'7') the decoded value equals `Σ digit_i * 8 ^ (n - 1 - i)`. -/
theorem c2_oct2dec_strlen_digits :
    (∀ l₁ l₂ : List Int, (∀ b ∈ l₁, b ≠ 0) → oct2dec (l₁ ++ 0 :: l₂) = oct2dec l₁) ∧
      (∀ l : List Int, (∀ b ∈ l, 48 ≤ b ∧ b ≤ 55) → oct2dec l = octSpecValue l) := by
  constructor
  · intro l₁ l₂ h
    unfold oct2dec
    rw [cstr_append_nul l₁ l₂ h, cstr_of_no_nul l₁ h]
  · intro l h
    unfold oct2dec
    rw [cstr_of_no_nul l (fun b hb => by have := h b hb; omega)]
    rw [oct2decLoop_spec l.reverse
      (fun b hb => by
        have := h b (List.mem_reverse.mp hb)
        unfold schar
        rw [if_pos (by omega)])]
    rw [octValLE_reverse]
    ring

/-- C2 witness: concrete instances of both conjuncts — `oct2dec "1\0 2" = oct2dec "1"`
and `oct2dec "12" = 10 = Σ digit_i * 8 ^ (1 - i)`. -/
theorem c2_oct2dec_strlen_digits_witness :
    oct2dec [49, 0, 50] = oct2dec [49] ∧ oct2dec [49, 50] = octSpecValue [49, 50] :=
  ⟨c2_oct2dec_strlen_digits.1 [49] [50] (by decide),
   c2_oct2dec_strlen_digits.2 [49, 50] (by decide)⟩

/-- C3: refutation of "tail_bytes = 512 exactly when size is a positive
multiple of 512": at decoded size 0 the code computes
`bytes_left = 0 - (0 - 1) * 512 = 512` although 0 is not a positive multiple
of 512. -/
theorem c3_counterexample :
    ¬ (bytes_left 0 = 512 ↔ (0 < (0 : Int) ∧ (512 : Int) ∣ 0)) := by
  intro h
  have h512 : bytes_left 0 = 512 := by decide
  have := h.mp h512
  exact absurd this.1 (by decide)

/-- C3 (amended): for every decoded size `s ≥ 0`, the block count is
`ceil(s/512)` (the least count whose blocks cover `s`), the tail bytes lie in
`[0, 512]`, the tail equals 512 exactly when `s` is a multiple of 512 — the
degenerate size 0 included, where the computed tail is unused because the
block count is 0. -/
theorem c3_entry_extent (size : Int) (h : 0 ≤ size) :
    (size ≤ 512 * blocks_count size ∧ 512 * blocks_count size < size + 512) ∧
      (0 ≤ bytes_left size ∧ bytes_left size ≤ 512) ∧
      (bytes_left size = 512 ↔ (512 : Int) ∣ size) ∧
      (size = 0 → blocks_count size = 0) := by
  have hdiv : blocks_count size = (size + 511) / 512 := by
    unfold blocks_count
    exact Int.tdiv_eq_ediv (by omega) (by omega)
  have hb : bytes_left size = size - (blocks_count size - 1) * 512 := rfl
  rw [Int.dvd_iff_emod_eq_zero]
  rw [hb, hdiv]
  omega

/-- C3 witness: the amended extent facts instantiated at size 1024. -/
theorem c3_entry_extent_witness :
    ((1024 : Int) ≤ 512 * blocks_count 1024 ∧ 512 * blocks_count 1024 < 1024 + 512) ∧
      (0 ≤ bytes_left 1024 ∧ bytes_left 1024 ≤ 512) ∧
      (bytes_left 1024 = 512 ↔ (512 : Int) ∣ 1024) ∧
      ((1024 : Int) = 0 → blocks_count 1024 = 0) :=
  c3_entry_extent 1024 (by decide)

theorem readBlock_some (stream : List Int) (pos : Int) (h0 : 0 ≤ pos)
    (h1 : pos + 512 ≤ (stream.length : Int)) :
    readBlock stream pos = some ((stream.drop pos.toNat).take 512) := by
  unfold readBlock
  rw [if_pos ⟨h0, h1⟩]

theorem extractLoop_spec (stream : List Int) (tail : Int) (htail0 : 0 ≤ tail)
    (htail : tail ≤ 512) :
    ∀ (n : Nat) (pos : Int) (out : List Int), 0 ≤ pos →
      pos + 512 * ((n : Int) + 1) ≤ (stream.length : Int) →
      extractLoop stream tail (n + 1) pos out =
        some (out ++ (stream.drop pos.toNat).take (512 * n + tail.toNat),
          pos + 512 * ((n : Int) + 1)) := by
  intro n
  induction n with
  | zero =>
    intro pos out hpos hfit
    have hfit1 : pos + 512 ≤ (stream.length : Int) := by push_cast at hfit; omega
    rw [extractLoop, readBlock_some stream pos hpos hfit1]
    simp only [if_pos rfl, extractLoop, List.take_take]
    have hmin : min tail.toNat 512 = tail.toNat := by omega
    rw [hmin]
    norm_num
  | succ m ih =>
    intro pos out hpos hfit
    have hfit1 : pos + 512 ≤ (stream.length : Int) := by push_cast at hfit; omega
    rw [extractLoop, readBlock_some stream pos hpos hfit1]
    have hm1 : m + 1 ≠ 0 := Nat.succ_ne_zero m
    simp only [if_neg hm1]
    rw [ih (pos + 512) (out ++ (stream.drop pos.toNat).take 512) (by omega)
      (by push_cast at hfit ⊢; omega)]
    have hdrop : List.drop (pos + 512).toNat stream =
        List.drop 512 (List.drop pos.toNat stream) := by
      rw [List.drop_drop]
      congr 1
      omega
    rw [hdrop, List.append_assoc]
    have htake : List.take 512 (List.drop pos.toNat stream) ++
        List.take (512 * m + tail.toNat) (List.drop 512 (List.drop pos.toNat stream)) =
        List.take (512 * (m + 1) + tail.toNat) (List.drop pos.toNat stream) := by
      rw [show 512 * (m + 1) + tail.toNat = 512 + (512 * m + tail.toNat) by ring]
      conv_rhs => rw [List.take_add]
    rw [htake]
    have hpos2 : pos + 512 + 512 * ((m : Int) + 1) =
        pos + 512 * (((m + 1 : Nat) : Int) + 1) := by
      push_cast
      ring
    rw [hpos2]

/-- C4: for a regular-file entry of decoded size `s ≥ 0` whose payload blocks
are all present in the stream, extraction succeeds, writes exactly `s` bytes
to the output file, and those bytes are exactly the first `s` bytes of the
payload region — the final block's padding never reaches the output. -/
theorem c4_extract_roundtrip (stream : List Int) (pos : Int) (header : List Int)
    (hS : 0 ≤ oct2dec (header.drop 124)) (hpos : 0 ≤ pos)
    (hfit : pos + 512 * blocks_count (oct2dec (header.drop 124)) ≤ (stream.length : Int)) :
    extract_file stream pos header =
      some ((stream.drop pos.toNat).take (oct2dec (header.drop 124)).toNat,
        pos + 512 * blocks_count (oct2dec (header.drop 124))) ∧
      ((stream.drop pos.toNat).take (oct2dec (header.drop 124)).toNat).length =
        (oct2dec (header.drop 124)).toNat := by
  set S := oct2dec (header.drop 124) with hSdef
  have hB : blocks_count S = (S + 511) / 512 := Int.tdiv_eq_ediv (by omega) (by omega)
  have hlen : (stream.drop pos.toNat).length = stream.length - pos.toNat :=
    List.length_drop _ _
  constructor
  · unfold extract_file
    rw [← hSdef]
    by_cases hzero : S = 0
    · have hb0 : blocks_count S = 0 := by rw [hB]; omega
      rw [hb0]
      simp only [Int.toNat_zero, extractLoop]
      rw [hzero]
      simp
    · have hbpos : 1 ≤ blocks_count S := by rw [hB]; omega
      have hn : (blocks_count S).toNat = ((blocks_count S).toNat - 1) + 1 := by omega
      have htail0 : 0 ≤ bytes_left S := by
        unfold bytes_left; rw [hB]; omega
      have htail512 : bytes_left S ≤ 512 := by
        unfold bytes_left; rw [hB]; omega
      rw [hn, extractLoop_spec stream (bytes_left S) htail0 htail512
        ((blocks_count S).toNat - 1) pos [] hpos (by omega)]
      have harg : 512 * ((blocks_count S).toNat - 1) + (bytes_left S).toNat = S.toNat := by
        unfold bytes_left at htail0 htail512 ⊢
        omega
      rw [harg]
      simp only [List.nil_append]
      congr 2
      omega
  · rw [List.length_take, hlen]
    have hSB : S ≤ 512 * blocks_count S := by rw [hB]; omega
    omega

/-- The `enum mode` of src/mytar.c: listing or extracting. -/
inductive Mode
  | list
  | extract
deriving DecidableEq, BEq, Repr

/-- The mutable locals of `read_archive` in src/mytar.c, threaded as an
explicit state: the stream position (`ftell`), the two zero-block flags, the
`blocks_read` counter, the paired `files_args`/`files_found` arrays, plus
observable output: the names printed, the files extracted (name and bytes
written), and the positions at which a header-sized `fread` was attempted. -/
structure WState where
  pos : Int
  firstEmpty : Bool
  secondEmpty : Bool
  blocksRead : Int
  pending : List (List Int × Bool)
  prints : List (List Int)
  extracts : List (List Int × List Int)
  headerReads : List Int
deriving DecidableEq, Repr

/-- The fatal `errx` exits reachable from the walking loop of
src/mytar.c: bad magic, unsupported type (with the reported code), short
read inside `extract_file`, and the post-entry position check. -/
inductive Fatal
  | notTar
  | badType (code : Int)
  | eofExtract
  | eofSeek
deriving DecidableEq, Repr

/-- Outcome of the walking loop: normal `while` exit on a short header read,
`break` on the second zero block, a fatal process exit, or exhausted fuel
(the model's bound on loop iterations). -/
inductive WalkOut
  | finished (st : WState)
  | done (st : WState)
  | fatal (e : Fatal) (st : WState)
  | outOfFuel (st : WState)
deriving DecidableEq, Repr

/-- Outcome of one iteration of the walking loop: leave the loop with a
result, or continue with an updated state. -/
inductive StepOut
  | stop (out : WalkOut)
  | next (st : WState)
deriving DecidableEq, Repr

/-- One iteration of the `while (fread(...))` loop of `read_archive` in
src/mytar.c: attempt a header-sized read (recording the position), classify
the block, validate magic and typeflag, filter and print the name, then
extract or skip the payload and apply the `ftell > archive_size` check. -/
def walkStep (stream : List Int) (mode : Mode) (verbose : Bool) (st : WState) : StepOut :=
  let reads := st.headerReads ++ [st.pos]
  match readBlock stream st.pos with
  | none => .stop (.finished { st with headerReads := reads })
  | some blk =>
    let pos1 := st.pos + 512
    let br1 := st.blocksRead + 1
    if is_empty_block blk then
      if st.firstEmpty then
        .stop (.done { st with
          headerReads := reads
          pos := pos1
          blocksRead := br1
          secondEmpty := true })
      else
        .next { st with
          headerReads := reads
          pos := pos1
          blocksRead := br1
          firstEmpty := true }
    else
      let bc := blocks_count (oct2dec (blk.drop 124))
      if ¬ is_tar_archive blk then
        .stop (.fatal .notTar { st with
          headerReads := reads
          pos := pos1
          blocksRead := br1 })
      else if ¬ is_regular_file blk then
        .stop (.fatal (.badType (schar (blk.getD 156 0))) { st with
          headerReads := reads
          pos := pos1
          blocksRead := br1 })
      else
        let name := cstr blk
        let m := mark_file name st.pending
        let should_print := st.pending.isEmpty || m.1
        let prints1 :=
          if should_print && (mode == Mode.list || (mode == Mode.extract && verbose))
          then st.prints ++ [name] else st.prints
        if mode == Mode.extract && should_print then
          match extract_file stream pos1 blk with
          | none =>
            .stop (.fatal .eofExtract { st with
              headerReads := reads
              pos := pos1
              blocksRead := br1
              pending := m.2
              prints := prints1 })
          | some (outBytes, pos2) =>
            if (stream.length : Int) < pos2 then
              .stop (.fatal .eofSeek { st with
                headerReads := reads
                pos := pos2
                blocksRead := br1
                pending := m.2
                prints := prints1
                extracts := st.extracts ++ [(name, outBytes)] })
            else
              .next { st with
                headerReads := reads
                pos := pos2
                blocksRead := br1 + bc
                pending := m.2
                prints := prints1
                extracts := st.extracts ++ [(name, outBytes)] }
        else
          let pos2 := pos1 + 512 * bc
          if (stream.length : Int) < pos2 then
            .stop (.fatal .eofSeek { st with
              headerReads := reads
              pos := pos2
              blocksRead := br1
              pending := m.2
              prints := prints1 })
          else
            .next { st with
              headerReads := reads
              pos := pos2
              blocksRead := br1 + bc
              pending := m.2
              prints := prints1 }

/-- The whole `while` loop of `read_archive`, with fuel bounding the number
of iterations (each C iteration consumes at least one block, so any archive
of `n` blocks finishes within `n + 1` iterations). -/
def walkLoop (stream : List Int) (mode : Mode) (verbose : Bool) : Nat → WState → WalkOut
  | 0, st => .outOfFuel st
  | fuel + 1, st =>
    match walkStep stream mode verbose st with
    | .stop out => out
    | .next st' => walkLoop stream mode verbose fuel st'

/-- Initial walker state for a given requested-name list: position 0, no
zero block seen, and every `files_found` flag calloc-initialised to false. -/
def init_state (args : List (List Int)) : WState :=
  { pos := 0, firstEmpty := false, secondEmpty := false, blocksRead := 0,
    pending := args.map (fun a => (a, false)), prints := [], extracts := [],
    headerReads := [] }

/-- The state carried by a walk outcome. -/
def outState : WalkOut → WState
  | .finished st => st
  | .done st => st
  | .fatal _ st => st
  | .outOfFuel st => st

/-- Result of a completed (non-fatal) run of `read_archive`: final walker
state, whether the lone-zero-block warning fires, the names reported as
missing, and the process exit status. -/
structure FinalState where
  st : WState
  loneZero : Bool
  missing : List (List Int)
  exitCode : Nat
deriving DecidableEq, Repr

/-- Result of `read_archive` as a whole: post-walk bookkeeping on a normal
loop exit, or the fatal mid-walk `errx`. -/
inductive RunOut
  | ok (fs : FinalState)
  | fatal (e : Fatal) (st : WState)
  | outOfFuel (st : WState)
deriving DecidableEq, Repr

/-- The `read_archive` function of src/mytar.c: run the walking loop from the
initial state, then emit the lone-zero-block warning and the missing-file
report, exiting 2 when any requested file was absent.  A fatal mid-walk
condition terminates the process (exit status 2) with no post-walk report. -/
def read_archive (fuel : Nat) (stream : List Int) (args : List (List Int))
    (mode : Mode) (verbose : Bool) : RunOut :=
  match walkLoop stream mode verbose fuel (init_state args) with
  | .outOfFuel st => .outOfFuel st
  | .fatal e st => .fatal e st
  | .finished st =>
    let rep := report_missing_files st.pending
    .ok { st := st, loneZero := st.firstEmpty && !st.secondEmpty, missing := rep.2,
          exitCode := if rep.1 then 2 else 0 }
  | .done st =>
    let rep := report_missing_files st.pending
    .ok { st := st, loneZero := st.firstEmpty && !st.secondEmpty, missing := rep.2,
          exitCode := if rep.1 then 2 else 0 }

/-- Process exit status of a run: 2 on any fatal `errx`, else the post-walk
status; `none` when the model ran out of fuel. -/
def run_exit : RunOut → Option Nat
  | .ok fs => some fs.exitCode
  | .fatal _ _ => some 2
  | .outOfFuel _ => none

/-- Pad a field to its declared width with NUL bytes. -/
def padTo (n : Nat) (l : List Int) : List Int := l ++ List.replicate (n - l.length) 0

/-- An all-zero 512-byte sentinel block. -/
def zeroBlock : List Int := List.replicate 512 0

/-- Build a 512-byte ustar header block: name (100 bytes), mode/uid/gid
zeroed (24 bytes), size field (12 bytes), mtime/chksum zeroed (20 bytes),
typeflag (1 byte), linkname (100 bytes), magic+version (8 bytes), remaining
fields zeroed (247 bytes). -/
def mkHeader (name sizeField : List Int) (typeflag : Int)
    (linkname magicVersion : List Int) : List Int :=
  padTo 100 name ++ List.replicate 24 0 ++ padTo 12 sizeField ++ List.replicate 20 0 ++
    [typeflag] ++ padTo 100 linkname ++ padTo 8 magicVersion ++ List.replicate 247 0

/-- The old-GNU magic+version bytes the program accepts: "ustar  \0". -/
def goodMV : List Int := [117, 115, 116, 97, 114, 32, 32, 0]

/-- The POSIX ustar magic+version bytes: "ustar\0" then "00". -/
def posixMV : List Int := [117, 115, 116, 97, 114, 0, 48, 48]

/-- A minimal valid entry header: name "a", size field "0" (zero payload),
typeflag '0', empty linkname, accepted magic+version. -/
def hdrA : List Int := mkHeader [97] [48] 48 [] goodMV

/-- C1: evaluation of the walker at the failing input — a zero block, then a
valid non-zero header entry, then a second zero block.  The two zero blocks
are NOT in immediate succession (a non-zero header block lies between them),
yet the walk transitions to its terminal success state on the second zero
block (secondEmpty set, clean exit status 0, and no lone-zero warning),
because `read_archive` never resets `first_empty` when a non-zero block is
read.  This contradicts the claim (and the code's own comment) that only two
consecutive zero blocks end the walk cleanly. -/
theorem c1_nonconsecutive_zero_blocks_end_walk :
    is_empty_block hdrA = false ∧
    read_archive 10 (zeroBlock ++ hdrA ++ zeroBlock) [] Mode.list false =
      RunOut.ok
        { st := { pos := 1536, firstEmpty := true, secondEmpty := true, blocksRead := 3,
                  pending := [], prints := [[97]], extracts := [],
                  headerReads := [0, 512, 1024] },
          loneZero := false, missing := [], exitCode := 0 } := by
  constructor
  · decide
  · decide

theorem cstr_cons (a : Int) (l : List Int) :
    cstr (a :: l) = if a = 0 then [] else a :: cstr l := by
  unfold cstr
  rw [List.takeWhile_cons]
  by_cases ha : a = 0 <;> simp [ha]

theorem getD_drop_cons : ∀ (n : Nat) (l t : List Int) (a : Int),
    l.drop n = a :: t → l.getD n 0 = a
  | 0, l, t, a, h => by
    simp only [List.drop_zero] at h
    rw [h]
    rfl
  | n + 1, [], t, a, h => by simp at h
  | n + 1, x :: xs, t, a, h => by
    simp only [List.drop_succ_cons] at h
    simpa using getD_drop_cons n xs t a h

theorem walkStep_bad_magic (stream : List Int) (mode : Mode) (verbose : Bool)
    (st : WState) (blk : List Int)
    (hread : readBlock stream st.pos = some blk)
    (hne : is_empty_block blk = false)
    (hmag : is_tar_archive blk = false) :
    walkStep stream mode verbose st =
      StepOut.stop (WalkOut.fatal Fatal.notTar
        { st with
          headerReads := st.headerReads ++ [st.pos]
          pos := st.pos + 512
          blocksRead := st.blocksRead + 1 }) := by
  unfold walkStep
  rw [hread]
  simp [hne, hmag]

/-- C5: whenever the walker reads a non-zero block whose magic tag fails the
ustar check, the walk ends at once with the fatal not-a-tar-archive outcome:
the resulting state carries the very same filter state, printed names and
extracted files as before the block, so no further entry is processed; and
every fatal outcome of a run carries the failure exit status 2. -/
theorem c5_bad_magic_fatal (fuel : Nat) (stream : List Int) (mode : Mode) (verbose : Bool)
    (st : WState) (blk : List Int)
    (hread : readBlock stream st.pos = some blk)
    (hne : is_empty_block blk = false)
    (hmag : is_tar_archive blk = false) :
    walkLoop stream mode verbose (fuel + 1) st =
      WalkOut.fatal Fatal.notTar
        { st with
          headerReads := st.headerReads ++ [st.pos]
          pos := st.pos + 512
          blocksRead := st.blocksRead + 1 } ∧
    (∀ e stx, run_exit (RunOut.fatal e stx) = some 2) := by
  constructor
  · rw [walkLoop, walkStep_bad_magic stream mode verbose st blk hread hne hmag]
  · intro e stx
    rfl

/-- A header carrying the POSIX ustar magic+version tag ("ustar\0" "00"),
which this program rejects. -/
def posixHdr : List Int := mkHeader [97] [48] 48 [] posixMV

/-- C5 witness: the walk over a stream consisting of one POSIX-tagged header
stops at once with the fatal not-a-tar-archive outcome. -/
theorem c5_bad_magic_fatal_witness :
    walkLoop posixHdr Mode.list false 1 (init_state []) =
      WalkOut.fatal Fatal.notTar
        { init_state [] with
          headerReads := (init_state []).headerReads ++ [(init_state []).pos]
          pos := (init_state []).pos + 512
          blocksRead := (init_state []).blocksRead + 1 } :=
  (c5_bad_magic_fatal 0 posixHdr Mode.list false (init_state []) posixHdr
    (by decide) (by decide) (by decide)).1

theorem walkStep_bad_type (stream : List Int) (mode : Mode) (verbose : Bool)
    (st : WState) (blk : List Int)
    (hread : readBlock stream st.pos = some blk)
    (hne : is_empty_block blk = false)
    (hmag : is_tar_archive blk = true)
    (hrf : is_regular_file blk = false) :
    walkStep stream mode verbose st =
      StepOut.stop (WalkOut.fatal (Fatal.badType (schar (blk.getD 156 0)))
        { st with
          headerReads := st.headerReads ++ [st.pos]
          pos := st.pos + 512
          blocksRead := st.blocksRead + 1 }) := by
  unfold walkStep
  rw [hread]
  simp [hne, hmag, hrf]

/-- C6 (amended): for a header that passed the magic check, the type check
`strcmp(header->typeflag, "0")` compares the NUL-terminated string starting
at the one-byte typeflag field, so it also inspects the first linkname byte:
the check passes iff the type byte is '0' AND the following byte is NUL.
When it fails, the walk terminates fatally reporting the type byte as the
offending code; when it passes, the step never produces an
unsupported-type fatal outcome and the entry is processed. -/
theorem c6_type_check (fuel : Nat) (stream : List Int) (mode : Mode) (verbose : Bool)
    (st : WState) (blk : List Int) (t0 t1 : Int) (rest : List Int)
    (hread : readBlock stream st.pos = some blk)
    (hne : is_empty_block blk = false)
    (hmag : is_tar_archive blk = true)
    (ht : blk.drop 156 = t0 :: t1 :: rest) :
    (is_regular_file blk = true ↔ (t0 = 48 ∧ t1 = 0)) ∧
    (is_regular_file blk = false →
      walkLoop stream mode verbose (fuel + 1) st =
        WalkOut.fatal (Fatal.badType (schar t0))
          { st with
            headerReads := st.headerReads ++ [st.pos]
            pos := st.pos + 512
            blocksRead := st.blocksRead + 1 }) ∧
    (is_regular_file blk = true →
      ∀ c stx, walkStep stream mode verbose st ≠
        StepOut.stop (WalkOut.fatal (Fatal.badType c) stx)) := by
  have ht0 : blk.getD 156 0 = t0 := getD_drop_cons 156 blk (t1 :: rest) t0 ht
  refine ⟨?_, ?_, ?_⟩
  · unfold is_regular_file
    rw [ht, beq_iff_eq]
    rw [cstr_cons, cstr_cons]
    unfold REG_FILE
    split_ifs <;> simp_all
  · intro hrf
    rw [walkLoop, walkStep_bad_type stream mode verbose st blk hread hne hmag hrf, ht0]
  · intro hrf c stx
    unfold walkStep
    rw [hread]
    simp [hne, hmag, hrf]
    repeat' split
    all_goals simp

/-- A header with typeflag '0' (the regular-file value) but a non-empty
linkname field beginning with the byte 'x'. -/
def hdrLink : List Int := mkHeader [97] [48] 48 [120] goodMV

/-- C6 counterexample: the header `hdrLink` carries the regular-file type
indicator (byte value 48 at offset 156) and a valid magic tag, yet the type
check rejects it and the walk terminates fatally with code 48, because the
`strcmp` overruns into its non-NUL first linkname byte.  This refutes the
claim that every header whose type indicator is the regular-file value
passes the type check. -/
theorem c6_counterexample :
    hdrLink.getD 156 0 = 48 ∧ is_tar_archive hdrLink = true ∧
    is_regular_file hdrLink = false ∧
    walkLoop hdrLink Mode.list false 1 (init_state []) =
      WalkOut.fatal (Fatal.badType 48)
        { pos := 512, firstEmpty := false, secondEmpty := false, blocksRead := 1,
          pending := [], prints := [], extracts := [], headerReads := [0] } := by
  refine ⟨by decide, by decide, by decide, by decide⟩

/-- C6 witness: the fatal unsupported-type outcome of the amended theorem,
instantiated at the concrete header `hdrLink` with every hypothesis
discharged. -/
theorem c6_type_check_witness :
    walkLoop hdrLink Mode.list false 1 (init_state []) =
      WalkOut.fatal (Fatal.badType 48)
        { pos := 512, firstEmpty := false, secondEmpty := false, blocksRead := 1,
          pending := [], prints := [], extracts := [], headerReads := [0] } :=
  (c6_type_check 0 hdrLink Mode.list false (init_state []) hdrLink 48 120
    (hdrLink.drop 158) (by decide) (by decide) (by decide) (by decide)).2.1 (by decide)

/-- C10: the magic validation compares the NUL-terminated string starting at
the 6-byte magic field against "ustar  ", so it also inspects the adjacent
2-byte version field: it accepts a header iff the magic bytes are
'u','s','t','a','r',' ' and the version bytes are ' ','\0'; in particular
the POSIX ustar tag (magic "ustar\0", version "00") fails the check. -/
theorem c10_magic_check_spans_version (blk : List Int) (m0 m1 m2 m3 m4 m5 v0 v1 : Int)
    (rest : List Int)
    (h : blk.drop 257 = m0 :: m1 :: m2 :: m3 :: m4 :: m5 :: v0 :: v1 :: rest) :
    (is_tar_archive blk = true ↔
      ([m0, m1, m2, m3, m4, m5] = [117, 115, 116, 97, 114, 32] ∧ [v0, v1] = [32, 0])) ∧
    ([m0, m1, m2, m3, m4, m5, v0, v1] = posixMV → is_tar_archive blk = false) := by
  have hiff : is_tar_archive blk = true ↔
      ([m0, m1, m2, m3, m4, m5] = [117, 115, 116, 97, 114, 32] ∧ [v0, v1] = [32, 0]) := by
    unfold is_tar_archive
    rw [h, beq_iff_eq]
    rw [cstr_cons, cstr_cons, cstr_cons, cstr_cons, cstr_cons, cstr_cons, cstr_cons,
      cstr_cons]
    unfold MAGIC
    split_ifs <;> (simp_all; try tauto)
  refine ⟨hiff, fun hpx => ?_⟩
  have hnot : ¬ ([m0, m1, m2, m3, m4, m5] = [117, 115, 116, 97, 114, 32] ∧
      [v0, v1] = [32, 0]) := by
    simp only [posixMV, List.cons.injEq, and_true] at hpx
    intro hc
    simp_all
  cases hb : is_tar_archive blk
  · rfl
  · exact absurd (hiff.mp hb) hnot

/-- C10 witness: the old-GNU tagged header `hdrA` satisfies the
characterization positively, and the POSIX-tagged header `posixHdr` is
rejected by the magic check. -/
theorem c10_magic_check_spans_version_witness :
    is_tar_archive hdrA = true ∧ is_tar_archive posixHdr = false :=
  ⟨((c10_magic_check_spans_version hdrA 117 115 116 97 114 32 32 0
      (hdrA.drop 265) (by decide)).1).mpr (by decide),
   (c10_magic_check_spans_version posixHdr 117 115 116 97 114 0 48 48
      (posixHdr.drop 265) (by decide)).2 (by decide)⟩

theorem mark_file_map_fst (name : List Int) :
    ∀ pending, ((mark_file name pending).2).map Prod.fst = pending.map Prod.fst := by
  intro pending
  induction pending with
  | nil => rfl
  | cons p rest ih =>
    obtain ⟨n, f⟩ := p
    unfold mark_file
    split_ifs with hc
    · simp [hc.1]
    · simpa using ih

theorem mark_file_mono (name : List Int) :
    ∀ pending (i : Nat), (pending[i]?).map Prod.snd = some true →
      (((mark_file name pending).2)[i]?).map Prod.snd = some true := by
  intro pending
  induction pending with
  | nil => intro i h; simp at h
  | cons p rest ih =>
    obtain ⟨n, f⟩ := p
    intro i h
    unfold mark_file
    split_ifs with hc
    · match i with
      | 0 => simp_all
      | i + 1 => simpa using h
    · match i with
      | 0 => simpa using h
      | i + 1 =>
        simp only [List.getElem?_cons_succ] at h ⊢
        exact ih i h

theorem mark_file_true_spec (name : List Int) :
    ∀ pending, (mark_file name pending).1 = true →
      ∃ i, pending[i]? = some (name, false) ∧
        (∀ j, j < i → pending[j]? ≠ some (name, false)) ∧
        (mark_file name pending).2 = pending.set i (name, true) := by
  intro pending
  induction pending with
  | nil => intro h; simp [mark_file] at h
  | cons p rest ih =>
    obtain ⟨n, f⟩ := p
    intro h
    by_cases hc : n = name ∧ f = false
    · refine ⟨0, ?_, ?_, ?_⟩
      · simp [hc.1, hc.2]
      · intro j hj; omega
      · simp [mark_file, hc]
    · have hrec : (mark_file name rest).1 = true := by
        unfold mark_file at h
        rw [if_neg hc] at h
        exact h
      obtain ⟨i, h1, h2, h3⟩ := ih hrec
      refine ⟨i + 1, by simpa using h1, ?_, ?_⟩
      · intro j hj
        match j with
        | 0 =>
          simp only [List.getElem?_cons_zero, ne_eq, Option.some.injEq, Prod.mk.injEq]
          intro hcc
          exact hc ⟨hcc.1, hcc.2⟩
        | j + 1 =>
          simp only [List.getElem?_cons_succ]
          exact h2 j (by omega)
      · unfold mark_file
        rw [if_neg hc]
        simpa using h3

theorem mark_file_false_spec (name : List Int) :
    ∀ pending, (mark_file name pending).1 = false →
      (mark_file name pending).2 = pending ∧ ∀ i : Nat, pending[i]? ≠ some (name, false) := by
  intro pending
  induction pending with
  | nil => intro h; simp [mark_file]
  | cons p rest ih =>
    obtain ⟨n, f⟩ := p
    intro h
    by_cases hc : n = name ∧ f = false
    · unfold mark_file at h
      rw [if_pos hc] at h
      simp at h
    · have hrec : (mark_file name rest).1 = false := by
        unfold mark_file at h
        rw [if_neg hc] at h
        exact h
      obtain ⟨h1, h2⟩ := ih hrec
      constructor
      · unfold mark_file
        rw [if_neg hc]
        simpa using h1
      · intro i
        match i with
        | 0 =>
          simp only [List.getElem?_cons_zero, ne_eq, Option.some.injEq, Prod.mk.injEq]
          intro hcc
          exact hc ⟨hcc.1, hcc.2⟩
        | i + 1 =>
          simp only [List.getElem?_cons_succ]
          exact h2 i

/-- C7: the selective filter.  With an empty requested-name list every entry
is selected.  Otherwise `mark_file` preserves the requested names, never
clears a found-flag, and: when it returns true there is a unique first
pending entry equal to the name and still unflagged, and exactly that flag is
set; when it returns false the state is unchanged and no unflagged equal
entry exists — in particular a later archive entry duplicating a name whose
pending occurrences are all already flagged is not selected. -/
theorem c7_selective_filter (name : List Int) (pending : List (List Int × Bool)) :
    (pending.isEmpty = true → (pending.isEmpty || (mark_file name pending).1) = true) ∧
    ((mark_file name pending).2).map Prod.fst = pending.map Prod.fst ∧
    (∀ i : Nat, (pending[i]?).map Prod.snd = some true →
      (((mark_file name pending).2)[i]?).map Prod.snd = some true) ∧
    ((mark_file name pending).1 = true →
      ∃ i, pending[i]? = some (name, false) ∧
        (∀ j, j < i → pending[j]? ≠ some (name, false)) ∧
        (mark_file name pending).2 = pending.set i (name, true)) ∧
    ((mark_file name pending).1 = false →
      (mark_file name pending).2 = pending ∧
        ∀ i : Nat, pending[i]? ≠ some (name, false)) ∧
    ((∀ p ∈ pending, p.1 = name → p.2 = true) →
      mark_file name pending = (false, pending)) := by
  refine ⟨fun h => by simp [h], mark_file_map_fst name pending,
    mark_file_mono name pending, mark_file_true_spec name pending,
    mark_file_false_spec name pending, fun hall => ?_⟩
  have hfalse : (mark_file name pending).1 = false := by
    cases hb : (mark_file name pending).1
    · rfl
    · obtain ⟨i, h1, _, _⟩ := mark_file_true_spec name pending hb
      have hmem : (name, false) ∈ pending := List.getElem?_mem h1
      have := hall (name, false) hmem rfl
      simp at this
  obtain ⟨h1, _⟩ := mark_file_false_spec name pending hfalse
  have : mark_file name pending = ((mark_file name pending).1, (mark_file name pending).2) := rfl
  rw [this, hfalse, h1]

/-- C7 witness: a requested name all of whose pending occurrences are already
flagged is not matched again and leaves the filter state unchanged. -/
theorem c7_selective_filter_witness :
    mark_file [97] [([97], true), ([98], false)] = (false, [([97], true), ([98], false)]) :=
  (c7_selective_filter [97] [([97], true), ([98], false)]).2.2.2.2.2 (by decide)

theorem report_missing_files_spec :
    ∀ pending, ((report_missing_files pending).1 = true ↔ ∃ p ∈ pending, p.2 = false) ∧
      (report_missing_files pending).2 =
        (pending.filter (fun p => !p.2)).map Prod.fst := by
  intro pending
  induction pending with
  | nil => simp [report_missing_files]
  | cons p rest ih =>
    obtain ⟨n, f⟩ := p
    obtain ⟨ih1, ih2⟩ := ih
    cases f
    · constructor
      · simp [report_missing_files]
      · simp [report_missing_files, ih2]
    · constructor
      · simpa [report_missing_files] using ih1
      · simpa [report_missing_files] using ih2

/-- C9: `report_missing_files` flags exactly the case in which some requested
name was never matched, and lists each such name (in request order); after a
walk that completes without a fatal error, `read_archive` reports those names
and exits 2 exactly when one exists, and exits 0 exactly when every requested
name was found (in particular when none was requested). -/
theorem c9_missing_names (fuel : Nat) (stream : List Int) (args : List (List Int))
    (mode : Mode) (verbose : Bool) (fs : FinalState)
    (h : read_archive fuel stream args mode verbose = RunOut.ok fs) :
    ((report_missing_files fs.st.pending).1 = true ↔ ∃ p ∈ fs.st.pending, p.2 = false) ∧
    fs.missing = (fs.st.pending.filter (fun p => !p.2)).map Prod.fst ∧
    (fs.exitCode = 2 ↔ ∃ p ∈ fs.st.pending, p.2 = false) ∧
    (fs.exitCode = 0 ↔ ∀ p ∈ fs.st.pending, p.2 = true) := by
  unfold read_archive at h
  split at h
  next st heq => exact absurd h (by simp)
  next e st heq => exact absurd h (by simp)
  all_goals (
    next st heq =>
      simp only [RunOut.ok.injEq] at h
      rw [← h]
      dsimp only
      obtain ⟨h1, h2⟩ := report_missing_files_spec st.pending
      have h1x : ((report_missing_files st.pending).1 = false ↔
          ∀ p ∈ st.pending, p.2 = true) := by
        constructor
        · intro hf p hp
          by_contra hb
          have hex : ∃ q ∈ st.pending, q.2 = false := ⟨p, hp, by simpa using hb⟩
          have hh := h1.mpr hex
          rw [hf] at hh
          exact absurd hh (by simp)
        · intro hall
          cases hb : (report_missing_files st.pending).1
          · rfl
          · obtain ⟨p, hp, hpf⟩ := h1.mp hb
            have hh := hall p hp
            rw [hh] at hpf
            exact absurd hpf (by simp)
      refine ⟨h1, h2, ?_, ?_⟩
      · cases hr : (report_missing_files st.pending).1 <;> simp [hr, ← h1]
      · cases hr : (report_missing_files st.pending).1
        · constructor
          · intro _
            exact h1x.mp hr
          · intro _
            simp [hr]
        · constructor
          · intro hc
            simp at hc
          · intro hall
            have hf := h1x.mpr hall
            rw [hr] at hf
            exact absurd hf (by simp))

/-- C9 witness: a walk over an empty archive (two zero blocks) with one
requested name "a" ends with that name reported missing and exit status 2;
the missing list equals the unflagged pending names. -/
theorem c9_missing_names_witness :
    (FinalState.mk (WState.mk 1024 true true 2 [([97], false)] [] [] [0, 512])
        false [[97]] 2).missing =
      ((FinalState.mk (WState.mk 1024 true true 2 [([97], false)] [] [] [0, 512])
        false [[97]] 2).st.pending.filter (fun p => !p.2)).map Prod.fst :=
  (c9_missing_names 3 (zeroBlock ++ zeroBlock) [[97]] Mode.list false
    (FinalState.mk (WState.mk 1024 true true 2 [([97], false)] [] [] [0, 512])
      false [[97]] 2) (by decide)).2.1

/-- A payload block whose meaningful bytes are 1, 2, 3 followed by zero
padding. -/
def payloadBlk : List Int := [1, 2, 3] ++ List.replicate 509 0

/-- A header whose size field is "3". -/
def hdr3 : List Int := mkHeader [97] [51] 48 [] goodMV

/-- C4 witness: extracting a 3-byte entry from its single payload block
writes exactly the 3 payload bytes, no padding. -/
theorem c4_extract_roundtrip_witness :
    extract_file payloadBlk 0 hdr3 = some ([1, 2, 3], 512) ∧
      (([1, 2, 3] : List Int)).length = 3 :=
  c4_extract_roundtrip payloadBlk 0 hdr3 (by decide) (by decide) (by decide)

theorem readBlock_bound (stream : List Int) (pos : Int) (blk : List Int)
    (h : readBlock stream pos = some blk) :
    0 ≤ pos ∧ pos + 512 ≤ (stream.length : Int) := by
  unfold readBlock at h
  split_ifs at h with hc
  exact hc

theorem walkStep_next_inv (stream : List Int) (mode : Mode) (verbose : Bool)
    (st st' : WState) (h : walkStep stream mode verbose st = StepOut.next st') :
    st'.pos ≤ (stream.length : Int) ∧ st'.headerReads = st.headerReads ++ [st.pos] := by
  unfold walkStep at h
  rcases hr : readBlock stream st.pos with _ | blk
  all_goals rw [hr] at h
  all_goals dsimp only at h
  · exact StepOut.noConfusion h
  · have hb := readBlock_bound stream st.pos blk hr
    repeat' split at h
    all_goals (first
      | (exfalso; exact StepOut.noConfusion h)
      | (injection h with h2; subst h2; refine ⟨?_, rfl⟩; dsimp only; omega))

theorem walkStep_stop_reads (stream : List Int) (mode : Mode) (verbose : Bool)
    (st : WState) (out : WalkOut)
    (h : walkStep stream mode verbose st = StepOut.stop out) :
    (outState out).headerReads = st.headerReads ++ [st.pos] := by
  unfold walkStep at h
  rcases hr : readBlock stream st.pos with _ | blk
  all_goals rw [hr] at h
  all_goals dsimp only at h
  · injection h with h2
    subst h2
    rfl
  · repeat' split at h
    all_goals (first
      | (exfalso; exact StepOut.noConfusion h)
      | (injection h with h2; subst h2; rfl))

theorem walkStep_skip_overrun (stream : List Int) (mode : Mode) (verbose : Bool)
    (st : WState) (blk : List Int)
    (hread : readBlock stream st.pos = some blk)
    (hne : is_empty_block blk = false)
    (hmag : is_tar_archive blk = true)
    (hrf : is_regular_file blk = true)
    (hskip : (mode == Mode.extract &&
      (st.pending.isEmpty || (mark_file (cstr blk) st.pending).1)) = false)
    (hover : (stream.length : Int) <
      st.pos + 512 + 512 * blocks_count (oct2dec (blk.drop 124))) :
    walkStep stream mode verbose st =
      StepOut.stop (WalkOut.fatal Fatal.eofSeek { st with
        headerReads := st.headerReads ++ [st.pos]
        pos := st.pos + 512 + 512 * blocks_count (oct2dec (blk.drop 124))
        blocksRead := st.blocksRead + 1
        pending := (mark_file (cstr blk) st.pending).2
        prints := if (st.pending.isEmpty || (mark_file (cstr blk) st.pending).1) &&
            (mode == Mode.list || (mode == Mode.extract && verbose))
          then st.prints ++ [cstr blk] else st.prints }) := by
  unfold walkStep
  rw [hread]
  simp [hne, hmag, hrf, hskip, add_assoc]
  omega

/-- C8: the post-entry position guard.  First conjunct: every position at
which the walker attempts a header-sized read stays within the archive's
total byte length (given the invariant holds of the starting state), because
re-entering the loop requires the `ftell > archive_size` check to have
passed.  Second conjunct: when a skipped entry's payload extent carries the
tracked position beyond the stream length, the walk terminates at once with
the fatal unexpected-EOF outcome, and its final read-trace is exactly the
old trace plus the current header — no further block is read. -/
theorem c8_offset_guard (stream : List Int) (mode : Mode) (verbose : Bool) :
    (∀ (fuel : Nat) (st : WState), st.pos ≤ (stream.length : Int) →
      (∀ p ∈ st.headerReads, p ≤ (stream.length : Int)) →
      ∀ p ∈ (outState (walkLoop stream mode verbose fuel st)).headerReads,
        p ≤ (stream.length : Int)) ∧
    (∀ (fuel : Nat) (st : WState) (blk : List Int),
      readBlock stream st.pos = some blk →
      is_empty_block blk = false →
      is_tar_archive blk = true →
      is_regular_file blk = true →
      (mode == Mode.extract && (st.pending.isEmpty || (mark_file (cstr blk) st.pending).1)) = false →
      (stream.length : Int) < st.pos + 512 + 512 * blocks_count (oct2dec (blk.drop 124)) →
      walkLoop stream mode verbose (fuel + 1) st =
        WalkOut.fatal Fatal.eofSeek { st with
          headerReads := st.headerReads ++ [st.pos]
          pos := st.pos + 512 + 512 * blocks_count (oct2dec (blk.drop 124))
          blocksRead := st.blocksRead + 1
          pending := (mark_file (cstr blk) st.pending).2
          prints := if (st.pending.isEmpty || (mark_file (cstr blk) st.pending).1) &&
              (mode == Mode.list || (mode == Mode.extract && verbose))
            then st.prints ++ [cstr blk] else st.prints } ∧
      (WState.headerReads { st with
          headerReads := st.headerReads ++ [st.pos]
          pos := st.pos + 512 + 512 * blocks_count (oct2dec (blk.drop 124))
          blocksRead := st.blocksRead + 1
          pending := (mark_file (cstr blk) st.pending).2
          prints := if (st.pending.isEmpty || (mark_file (cstr blk) st.pending).1) &&
              (mode == Mode.list || (mode == Mode.extract && verbose))
            then st.prints ++ [cstr blk] else st.prints }) = st.headerReads ++ [st.pos]) := by
  constructor
  · intro fuel
    induction fuel with
    | zero =>
      intro st h1 h2
      simpa [walkLoop, outState] using h2
    | succ n ih =>
      intro st h1 h2
      rw [walkLoop]
      rcases hs : walkStep stream mode verbose st with out | st'
      · dsimp only
        rw [walkStep_stop_reads stream mode verbose st out hs]
        intro p hp
        rcases List.mem_append.mp hp with hI | hI
        · exact h2 p hI
        · rw [List.mem_singleton.mp hI]
          exact h1
      · obtain ⟨ha, hb2⟩ := walkStep_next_inv stream mode verbose st st' hs
        dsimp only
        apply ih st' ha
        intro p hp
        rw [hb2] at hp
        rcases List.mem_append.mp hp with hI | hI
        · exact h2 p hI
        · rw [List.mem_singleton.mp hI]
          exact h1
  · intro fuel st blk hread hne hmag hrf hskip hover
    refine ⟨?_, rfl⟩
    rw [walkLoop, walkStep_skip_overrun stream mode verbose st blk hread hne hmag hrf hskip hover]

/-- A header declaring size "1" (one payload block). -/
def hdr1 : List Int := mkHeader [97] [49] 48 [] goodMV

/-- C8 witness: a lone header declaring one payload block with no payload
behind it drives the position to 1024 in a 512-byte stream; the walk stops
with the fatal unexpected-EOF outcome having read only the header. -/
theorem c8_offset_guard_witness :
    walkLoop hdr1 Mode.list false 1 (init_state []) =
      WalkOut.fatal Fatal.eofSeek
        { pos := 1024, firstEmpty := false, secondEmpty := false, blocksRead := 1,
          pending := [], prints := [[97]], extracts := [], headerReads := [0] } ∧
    WState.headerReads
        { pos := 1024, firstEmpty := false, secondEmpty := false, blocksRead := 1,
          pending := [], prints := [[97]], extracts := [], headerReads := [0] } = [0] :=
  (c8_offset_guard hdr1 Mode.list false).2 0 (init_state []) hdr1
    (by decide) (by decide) (by decide) (by decide) (by decide) (by decide)
